import Mathlib

/-!
Verification development for the bindfit binding-isotherm engine
(`src/bindfit/functions.py`).

The engine computes equilibrium complex concentrations for 1:1, 1:2 and 2:1
host-guest binding models and reduces them, via a least-squares regression,
to residuals for a nonlinear optimizer.

Embedding conventions:
* numpy float arithmetic is modelled by exact real arithmetic (ℝ);
  complex float arrays by ℂ.
* `np.lib.scimath.sqrt` on a real argument is the principal square root:
  real for nonnegative input, `i·sqrt(-x)` for negative input.
* `np.roots` (an external LAPACK eigenvalue computation) is modelled as an
  oracle: the per-observation solvers take the root list as an argument and
  theorems carry the hypothesis that every listed value is a root of the
  cubic built by the source code.
* `np.linalg.lstsq` (external LAPACK) is modelled relationally: its returned
  coefficient matrix is the minimum-norm least-squares solution, which is
  characterized by the normal equations together with membership in the row
  space (`IsLstsq`).  Its returned residual array is empty unless the matrix
  has full column rank and strictly more rows than columns (numpy's
  documented behaviour), which `npLstsqRssq` reproduces.
-/

noncomputable section

namespace Bindfit

open Matrix

/-- Model of `np.lib.scimath.sqrt` restricted to real input: the principal
square root, real for a nonnegative argument and purely imaginary with
positive imaginary part for a negative argument. -/
def scimathSqrt (x : ℝ) : ℂ :=
  if 0 ≤ x then ((Real.sqrt x : ℝ) : ℂ) else ⟨0, Real.sqrt (-x)⟩

/-- Model of `np.sqrt` on a real argument (the claims only use it at
nonnegative inputs). -/
def npSqrt (x : ℝ) : ℝ := Real.sqrt x

/-- The raw closed-form quadratic root computed identically in `nmr_1to1` and
`uv_1to1` (functions.py lines 110-113 and 143-146):
`hg = 0.5*((g0 + h0 + 1/k) - scimath.sqrt((g0+h0+1/k)^2 - 4*g0*h0))`. -/
def hgRaw (k h0 g0 : ℝ) : ℂ :=
  (1/2 : ℂ) * ((((g0 + h0 + 1/k) : ℝ) : ℂ)
    - scimathSqrt ((g0 + h0 + 1/k)^2 - 4*(g0*h0)))

/-- `uv_1to1` at a single observation (functions.py lines 127-159): the raw
root, the replacement branch `hg[np.imag(hg) > 0] = np.sqrt(h0*g0)`, and the
optional mole-fraction normalization `hg /= h0`. -/
def uv1to1_point (k h0 g0 : ℝ) (molefrac : Bool) : ℂ :=
  let hg := hgRaw k h0 g0
  let hgSel := if 0 < hg.im then ((npSqrt (h0*g0) : ℝ) : ℂ) else hg
  if molefrac then hgSel / ((h0 : ℝ) : ℂ) else hgSel

/-- `nmr_1to1` at a single observation (functions.py lines 94-125): identical
to `uv_1to1` except the division by `h0` is unconditional. -/
def nmr1to1_point (k h0 g0 : ℝ) : ℂ :=
  let hg := hgRaw k h0 g0
  let hgSel := if 0 < hg.im then ((npSqrt (h0*g0) :
    ℝ) : ℂ) else hg
  hgSel / ((h0 : ℝ) : ℂ)

lemma scimathSqrt_im_nonneg (x : ℝ) : 0 ≤ (scimathSqrt x).im := by
  unfold scimathSqrt
  split_ifs with h
  · simp
  · simpa using Real.sqrt_nonneg (-x)

lemma scimathSqrt_of_nonneg {x : ℝ} (h : 0 ≤ x) :
    scimathSqrt x = ((Real.sqrt x : ℝ) : ℂ) := by
  simp [scimathSqrt, h]

lemma scimathSqrt_of_neg {x : ℝ} (h : x < 0) :
    scimathSqrt x = ⟨0, Real.sqrt (-x)⟩ := by
  simp [scimathSqrt, not_le.mpr h]

/-- The imaginary part of the raw quadratic root is never positive: it equals
`-0.5*sqrt(-disc)` when the discriminant is negative and `0` otherwise. -/
lemma hgRaw_im_nonpos (k h0 g0 : ℝ) : (hgRaw k h0 g0).im ≤ 0 := by
  have h := scimathSqrt_im_nonneg ((g0 + h0 + 1/k)^2 - 4*(g0*h0))
  unfold hgRaw
  rw [Complex.mul_im]
  simp only [Complex.sub_im, Complex.sub_re, Complex.ofReal_im, Complex.ofReal_re]
  have h12re : ((1/2 : ℂ)).re = 1/2 := by norm_num
  have h12im : ((1/2 : ℂ)).im = 0 := by norm_num
  rw [h12re, h12im]
  linarith

lemma sqrt_four : Real.sqrt 4 = 2 := by
  rw [show (4:ℝ) = 2^2 by norm_num, Real.sqrt_sq (by norm_num : (0:ℝ) ≤ 2)]

lemma sqrt_nine : Real.sqrt 9 = 3 := by
  rw [show (9:ℝ) = 3^2 by norm_num, Real.sqrt_sq (by norm_num : (0:ℝ) ≤ 3)]

/-- Evaluation of the raw root at the C2 failing input `k = -1/2, h0 = g0 = 1`
(discriminant `-4`): the root is `-i`, whose imaginary part is negative. -/
lemma hgRaw_at_neg_disc : hgRaw (-(1/2)) 1 1 = ⟨0, -1⟩ := by
  have hd : ((1:ℝ) + 1 + 1/(-(1/2)))^2 - 4*((1:ℝ)*1) = -4 := by norm_num
  unfold hgRaw
  rw [hd, scimathSqrt_of_neg (by norm_num)]
  apply Complex.ext <;>
    simp [Complex.mul_re, Complex.mul_im, Complex.sub_re, Complex.sub_im,
      sqrt_four] <;> norm_num

/-- Evaluation of the raw root at `k = 1, h0 = g0 = 2` (discriminant `9`):
the root is the real number `1`. -/
lemma hgRaw_at_1_2_2 : hgRaw 1 2 2 = 1 := by
  have hd : ((2:ℝ) + 2 + 1/1)^2 - 4*((2:ℝ)*2) = 9 := by norm_num
  unfold hgRaw
  rw [hd, scimathSqrt_of_nonneg (by norm_num)]
  rw [sqrt_nine]
  apply Complex.ext <;>
    simp [Complex.mul_re, Complex.mul_im, Complex.sub_re, Complex.sub_im] <;>
    norm_num

lemma uv1to1_point_1_2_2 : uv1to1_point 1 2 2 false = 1 := by
  unfold uv1to1_point
  rw [hgRaw_at_1_2_2]
  norm_num

/-- Claim C2: in the 1:1 solvers, wherever the discriminant
`(g0+h0+1/K)^2 - 4*g0*h0` is negative the returned concentration is claimed
to be `sqrt(h0*g0)`.  The code cannot do this: the raw root's imaginary part
is `-0.5*sqrt(-disc) ≤ 0`, so the replacement test `np.imag(hg) > 0` never
fires, contradicting the source comment "Replace any non-real solutions with
sqrt(h0*g0)".  At `k = -1/2, h0 = g0 = [1]` the discriminant is `-4 < 0` and
both solvers return the non-real root `-i` instead of `sqrt(1*1) = 1`. -/
theorem C2_replacement_branch_dead :
    (((1:ℝ) + 1 + 1/(-(1/2)))^2 - 4*((1:ℝ)*1) < 0) ∧
    uv1to1_point (-(1/2)) 1 1 false = ⟨0, -1⟩ ∧
    nmr1to1_point (-(1/2)) 1 1 = ⟨0, -1⟩ ∧
    uv1to1_point (-(1/2)) 1 1 false ≠ ((npSqrt ((1:ℝ)*1) : ℝ) : ℂ) ∧
    ∀ k h0 g0 : ℝ, (hgRaw k h0 g0).im ≤ 0 := by
  have huv : uv1to1_point (-(1/2)) 1 1 false = ⟨0, -1⟩ := by
    unfold uv1to1_point
    rw [hgRaw_at_neg_disc]
    norm_num
  refine ⟨by norm_num, huv, ?_, ?_, hgRaw_im_nonpos⟩
  · unfold nmr1to1_point
    rw [hgRaw_at_neg_disc]
    norm_num
  · rw [huv]
    intro h
    have him := congrArg Complex.im h
    simp [npSqrt] at him

/-! ### Cubic solvers for the 1:2 and 2:1 models -/

/-- Coefficients `a*x^3 + b*x^2 + c*x + d` of the per-observation cubic. -/
structure CubicCoeffs where
  a : ℝ
  b : ℝ
  c : ℝ
  d : ℝ

/-- Cubic coefficients built by `uv_1to2`/`nmr_1to2` (functions.py lines
182-185 and 245-248) for the free guest concentration. -/
def cubic12 (k11 k12 h0 g0 : ℝ) : CubicCoeffs :=
  ⟨k11*k12, 2*k11*k12*h0 + k11 - g0*k11*k12, 1 + k11*h0 - k11*g0, -g0⟩

/-- Cubic coefficients built by `nmr_2to1`/`uv_2to1` (functions.py lines
298-301 and 350-353) for the free host concentration: the 1:2 coefficients
with host and guest swapped. -/
def cubic21 (k11 k12 h0 g0 : ℝ) : CubicCoeffs :=
  ⟨k11*k12, 2*k11*k12*g0 + k11 - h0*k11*k12, 1 + k11*g0 - k11*h0, -h0⟩

/-- The oracle specification for `np.roots`: every listed complex value is a
root of the cubic. -/
def IsRootList (co : CubicCoeffs) (roots : List ℂ) : Prop :=
  ∀ z ∈ roots, (co.a : ℂ)*z^3 + (co.b : ℂ)*z^2 + (co.c : ℂ)*z + (co.d : ℂ) = 0

open Classical in
/-- The candidate filter of the root-selection loop (functions.py line 196):
`np.all([np.imag(roots) == 0, np.real(roots) >= 0], axis=0)`. -/
def candidateRoots : List ℂ → List ℂ
  | [] => []
  | z :: l => if z.im = 0 ∧ 0 ≤ z.re then z :: candidateRoots l else candidateRoots l

/-- Running minimum of the real parts of a list of (real-valued) roots,
mirroring `roots[select].min()`. -/
def minRe : List ℂ → ℝ → ℝ
  | [], m => m
  | z :: l, m => minRe l (min m z.re)

/-- Selection on an explicit candidate list: minimum real part if non-empty,
`0.0` otherwise (functions.py lines 197-202). -/
def selectRootAux : List ℂ → ℝ
  | [] => 0
  | z :: l => minRe l z.re

/-- The per-observation physical root selected by the 1:2/2:1 solvers:
the smallest real non-negative root of the cubic, or `0.0` when no such root
exists. -/
def selectRoot (roots : List ℂ) : ℝ := selectRootAux (candidateRoots roots)

lemma mem_candidateRoots {roots : List ℂ} {z : ℂ} :
    z ∈ candidateRoots roots ↔ z ∈ roots ∧ z.im = 0 ∧ 0 ≤ z.re := by
  induction roots with
  | nil => simp [candidateRoots]
  | cons w l ih =>
    rw [candidateRoots]
    split_ifs with hw
    · constructor
      · intro h
        rcases List.mem_cons.mp h with h1 | h1
        · exact ⟨h1 ▸ List.mem_cons_self w l, h1 ▸ hw.1, h1 ▸ hw.2⟩
        · obtain ⟨hz, him, hre⟩ := ih.mp h1
          exact ⟨List.mem_cons_of_mem _ hz, him, hre⟩
      · rintro ⟨h1, him, hre⟩
        rcases List.mem_cons.mp h1 with rfl | h2
        · exact List.mem_cons_self _ _
        · exact List.mem_cons_of_mem _ (ih.mpr ⟨h2, him, hre⟩)
    · rw [ih]
      constructor
      · rintro ⟨hz, him, hre⟩
        exact ⟨List.mem_cons_of_mem _ hz, him, hre⟩
      · rintro ⟨h1, him, hre⟩
        rcases List.mem_cons.mp h1 with rfl | h2
        · exact absurd ⟨him, hre⟩ hw
        · exact ⟨h2, him, hre⟩

lemma minRe_le_init (l : List ℂ) (m : ℝ) : minRe l m ≤ m := by
  induction l generalizing m with
  | nil => simp [minRe]
  | cons z l ih =>
    calc minRe (z :: l) m = minRe l (min m z.re) := rfl
    _ ≤ min m z.re := ih _
    _ ≤ m := min_le_left _ _

lemma minRe_le_mem (l : List ℂ) (m : ℝ) {z : ℂ} (hz : z ∈ l) :
    minRe l m ≤ z.re := by
  induction l generalizing m with
  | nil => cases hz
  | cons w l ih =>
    rcases List.mem_cons.mp hz with rfl | hz'
    · calc minRe (z :: l) m = minRe l (min m z.re) := rfl
      _ ≤ min m z.re := minRe_le_init _ _
      _ ≤ z.re := min_le_right _ _
    · exact ih (min m w.re) hz'

lemma minRe_eq_init_or_mem (l : List ℂ) (m : ℝ) :
    minRe l m = m ∨ ∃ z ∈ l, minRe l m = z.re := by
  induction l generalizing m with
  | nil => exact Or.inl rfl
  | cons z l ih =>
    rcases ih (min m z.re) with h | ⟨w, hw, hweq⟩
    · rcases le_total m z.re with hle | hle
      · left
        rw [minRe, h, min_eq_left hle]
      · right
        exact ⟨z, List.mem_cons_self _ _, by rw [minRe, h, min_eq_right hle]⟩
    · exact Or.inr ⟨w, List.mem_cons_of_mem _ hw, hweq⟩

lemma le_minRe (l : List ℂ) (m c : ℝ) (hc : c ≤ m) (h : ∀ z ∈ l, c ≤ z.re) :
    c ≤ minRe l m := by
  induction l generalizing m with
  | nil => exact hc
  | cons z l ih =>
    exact ih (min m z.re) (le_min hc (h z (List.mem_cons_self _ _)))
      (fun w hw => h w (List.mem_cons_of_mem _ hw))

/-- The selected root is never negative. -/
lemma selectRoot_nonneg (roots : List ℂ) : 0 ≤ selectRoot roots := by
  unfold selectRoot
  rcases h : candidateRoots roots with _ | ⟨z, l⟩
  · simp [selectRootAux]
  · rw [selectRootAux]
    have hz : z ∈ candidateRoots roots := by rw [h]; exact List.mem_cons_self _ _
    have hl : ∀ w ∈ l, (0:ℝ) ≤ w.re := fun w hw => by
      have : w ∈ candidateRoots roots := by
        rw [h]; exact List.mem_cons_of_mem _ hw
      exact (mem_candidateRoots.mp this).2.2
    exact le_minRe _ _ _ (mem_candidateRoots.mp hz).2.2 hl

/-- The selected root is the fallback `0.0` or the real part of an actual
real non-negative member of the root list. -/
lemma selectRoot_eq_zero_or_mem (roots : List ℂ) :
    selectRoot roots = 0 ∨
      ∃ z ∈ roots, z.im = 0 ∧ 0 ≤ z.re ∧ selectRoot roots = z.re := by
  unfold selectRoot
  rcases h : candidateRoots roots with _ | ⟨z, l⟩
  · left; simp [selectRootAux]
  · right
    rw [selectRootAux]
    have hmem : ∀ w ∈ candidateRoots roots, w ∈ roots ∧ w.im = 0 ∧ 0 ≤ w.re :=
      fun w hw => mem_candidateRoots.mp hw
    rcases minRe_eq_init_or_mem l z.re with heq | ⟨w, hw, hweq⟩
    · obtain ⟨hz, him, hre⟩ := hmem z (by rw [h]; exact List.mem_cons_self _ _)
      exact ⟨z, hz, him, hre, heq⟩
    · obtain ⟨hwmem, him, hre⟩ := hmem w (by rw [h]; exact List.mem_cons_of_mem _ hw)
      exact ⟨w, hwmem, him, hre, hweq⟩

/-- The selected root is a lower bound of the candidate set. -/
lemma selectRoot_le_candidates (roots : List ℂ) :
    ∀ z ∈ candidateRoots roots, selectRoot roots ≤ z.re := by
  intro z hz
  unfold selectRoot
  rcases h : candidateRoots roots with _ | ⟨w, l⟩
  · rw [h] at hz; cases hz
  · rw [selectRootAux]
    rw [h] at hz
    rcases List.mem_cons.mp hz with rfl | hz'
    · exact minRe_le_init _ _
    · exact minRe_le_mem _ _ hz'

/-- When candidates exist, the selected root is attained by one of them. -/
lemma selectRoot_mem_of_ne_nil {roots : List ℂ} (h : candidateRoots roots ≠ []) :
    ∃ z ∈ candidateRoots roots, selectRoot roots = z.re := by
  unfold selectRoot
  rcases hev : candidateRoots roots with _ | ⟨w, l⟩
  · exact absurd hev h
  · simp only [selectRootAux]
    rcases minRe_eq_init_or_mem l w.re with heq | ⟨v, hv, hveq⟩
    · exact ⟨w, List.mem_cons_self _ _, heq⟩
    · exact ⟨v, List.mem_cons_of_mem _ hv, hveq⟩

/-- Claim C4: for each observation the 1:2/2:1 solvers treat as candidates
exactly the roots with zero imaginary part and non-negative real part;
a non-empty candidate set yields its minimum real value, an empty one yields
`0.0` with no error, and the selected free concentration is therefore always
non-negative. -/
theorem C4_root_selection (co : CubicCoeffs) (roots : List ℂ)
    (hroots : IsRootList co roots) :
    (∀ z, z ∈ candidateRoots roots ↔ z ∈ roots ∧ z.im = 0 ∧ 0 ≤ z.re) ∧
    (candidateRoots roots = [] → selectRoot roots = 0) ∧
    (candidateRoots roots ≠ [] →
      (∃ z ∈ candidateRoots roots, selectRoot roots = z.re) ∧
      ∀ z ∈ candidateRoots roots, selectRoot roots ≤ z.re) ∧
    0 ≤ selectRoot roots := by
  refine ⟨fun z => mem_candidateRoots, ?_, ?_, selectRoot_nonneg roots⟩
  · intro h
    unfold selectRoot
    rw [h]
    rfl
  · intro h
    exact ⟨selectRoot_mem_of_ne_nil h, selectRoot_le_candidates roots⟩

/-- The concrete root list of the cubic `z^3 + z^2 - 2`, which is what
`cubic12 1 1 1 2` and `cubic21 1 1 2 1` both produce:
roots `1`, `-1+i`, `-1-i`. -/
def rootsEx : List ℂ := [1, ⟨-1, 1⟩, ⟨-1, -1⟩]

lemma cubic12_ex : cubic12 1 1 1 2 = ⟨1, 1, 0, -2⟩ := by
  unfold cubic12
  norm_num

lemma cubic21_ex : cubic21 1 1 2 1 = ⟨1, 1, 0, -2⟩ := by
  unfold cubic21
  norm_num

lemma rootsEx_isRootList : IsRootList ⟨1, 1, 0, -2⟩ rootsEx := by
  intro z hz
  simp only [rootsEx, List.mem_cons, List.mem_singleton, List.not_mem_nil,
    or_false] at hz
  rcases hz with rfl | rfl | rfl <;>
    · apply Complex.ext <;>
        simp [pow_succ, Complex.mul_re, Complex.mul_im, Complex.add_re,
          Complex.add_im] <;> norm_num

lemma rootsEx_isRootList12 : IsRootList (cubic12 1 1 1 2) rootsEx := by
  rw [cubic12_ex]; exact rootsEx_isRootList

lemma rootsEx_isRootList21 : IsRootList (cubic21 1 1 2 1) rootsEx := by
  rw [cubic21_ex]; exact rootsEx_isRootList

lemma candidateRoots_rootsEx : candidateRoots rootsEx = [1] := by
  unfold rootsEx
  rw [candidateRoots, if_pos (by norm_num)]
  rw [candidateRoots, if_neg (by norm_num)]
  rw [candidateRoots, if_neg (by norm_num)]
  rfl

lemma selectRoot_rootsEx : selectRoot rootsEx = 1 := by
  unfold selectRoot
  rw [candidateRoots_rootsEx]
  simp [selectRootAux, minRe]

/-- Witness for C4 at the concrete cubic `z^3 + z^2 - 2` produced by the 1:2
model at `K11 = K12 = 1, h0 = 1, g0 = 2`, with root list
`[1, -1+i, -1-i]`. -/
theorem C4_root_selection_witness :
    IsRootList (cubic12 1 1 1 2) rootsEx ∧
    ((∀ z, z ∈ candidateRoots rootsEx ↔ z ∈ rootsEx ∧ z.im = 0 ∧ 0 ≤ z.re) ∧
     (candidateRoots rootsEx = [] → selectRoot rootsEx = 0) ∧
     (candidateRoots rootsEx ≠ [] →
       (∃ z ∈ candidateRoots rootsEx, selectRoot rootsEx = z.re) ∧
       ∀ z ∈ candidateRoots rootsEx, selectRoot rootsEx ≤ z.re) ∧
     0 ≤ selectRoot rootsEx) :=
  ⟨rootsEx_isRootList12, C4_root_selection _ _ rootsEx_isRootList12⟩

/-! ### The 1:2 and 2:1 model functions at a single observation -/

/-- `uv_1to2` at a single observation (functions.py lines 161-222): from the
selected free-guest root `g`, the complex concentrations
`hg = h0*g*k11/(1+g*k11+g^2*k11*k12)` and `hg2 = h0*g^2*k11*k12/(...)`,
optionally divided by `h0` when `molefrac` is set. -/
def uv1to2_point (k11 k12 h0 g0 : ℝ) (roots : List ℂ) (molefrac : Bool) :
    ℝ × ℝ :=
  let g := selectRoot roots
  let hg := h0*((g*k11)/(1+(g*k11)+(g*g*k11*k12)))
  let hg2 := h0*(((g*g*k11*k12))/(1+(g*k11)+(g*g*k11*k12)))
  if molefrac then (hg / h0, hg2 / h0) else (hg, hg2)

/-- `nmr_1to2` at a single observation (functions.py lines 224-282): the
mole fractions are computed directly, without the `h0` factor. -/
def nmr1to2_point (k11 k12 h0 g0 : ℝ) (roots : List ℂ) : ℝ × ℝ :=
  let g := selectRoot roots
  ((g*k11)/(1+(g*k11)+(g*g*k11*k12)),
   ((g*g*k11*k12))/(1+(g*k11)+(g*g*k11*k12)))

/-- `nmr_2to1` at a single observation (functions.py lines 284-333): from the
selected free-host root `h`, `hg = g0*h*k11/(h0*(1+h*k11+h^2*k11*k12))` and
`h2g = 2*g0*h^2*k11*k12/(h0*(...))`. -/
def nmr2to1_point (k11 k12 h0 g0 : ℝ) (roots : List ℂ) : ℝ × ℝ :=
  let h := selectRoot roots
  ((g0*h*k11)/(h0*(1+(h*k11)+(h*h*k11*k12))),
   (2*g0*h*h*k11*k12)/(h0*(1+(h*k11)+(h*h*k11*k12))))

/-- `uv_2to1` at a single observation (functions.py lines 335-390). -/
def uv2to1_point (k11 k12 h0 g0 : ℝ) (roots : List ℂ) (molefrac : Bool) :
    ℝ × ℝ :=
  let h := selectRoot roots
  let hg := g0*((h*k11)/(1+(h*k11)+(h*h*k11*k12)))
  let h2g := g0*((2*h*h*k11*k12)/(1+(h*k11)+(h*h*k11*k12)))
  if molefrac then (hg / h0, h2g / h0) else (hg, h2g)

/-- A real non-negative root of the 2:1 cubic satisfies the host mass
balance: `h*(1+k11*h+k11*k12*h^2) + g0*(k11*h + 2*k11*k12*h^2)
= h0*(1+k11*h+k11*k12*h^2)`. -/
lemma cubic21_real_eq {k11 k12 h0 g0 : ℝ} {roots : List ℂ}
    (hr : IsRootList (cubic21 k11 k12 h0 g0) roots) {z : ℂ} (hz : z ∈ roots)
    (him : z.im = 0) :
    k11*k12*z.re^3 + (2*k11*k12*g0 + k11 - h0*k11*k12)*z.re^2
      + (1 + k11*g0 - k11*h0)*z.re - h0 = 0 := by
  have hzc : z = ((z.re : ℝ) : ℂ) := by
    apply Complex.ext
    · simp
    · simp [him]
  have h0c := hr z hz
  rw [hzc] at h0c
  have : (((k11*k12*z.re^3 + (2*k11*k12*g0 + k11 - h0*k11*k12)*z.re^2
      + (1 + k11*g0 - k11*h0)*z.re - h0 : ℝ)) : ℂ) = 0 := by
    push_cast
    rw [show cubic21 k11 k12 h0 g0 =
      ⟨k11*k12, 2*k11*k12*g0 + k11 - h0*k11*k12, 1 + k11*g0 - k11*h0, -h0⟩ from rfl]
      at h0c
    push_cast at h0c
    linear_combination h0c
  exact_mod_cast this

/-- Claim C7: for positive binding constants, positive total host and
non-negative total guest concentration, the two mole fractions computed by
`nmr_1to2` sum to at most 1, and likewise for `nmr_2to1` (whose free-host
root comes from the 2:1 cubic). -/
theorem C7_molefrac_sum_le_one
    (k11 k12 h0 g0 k11' k12' h0' g0' : ℝ) (roots12 roots21 : List ℂ)
    (hk11 : 0 < k11) (hk12 : 0 < k12) (hh0 : 0 < h0) (hg0 : 0 ≤ g0)
    (hk11' : 0 < k11') (hk12' : 0 < k12') (hh0' : 0 < h0') (hg0' : 0 ≤ g0')
    (hr12 : IsRootList (cubic12 k11 k12 h0 g0) roots12)
    (hr21 : IsRootList (cubic21 k11' k12' h0' g0') roots21) :
    (nmr1to2_point k11 k12 h0 g0 roots12).1
      + (nmr1to2_point k11 k12 h0 g0 roots12).2 ≤ 1 ∧
    (nmr2to1_point k11' k12' h0' g0' roots21).1
      + (nmr2to1_point k11' k12' h0' g0' roots21).2 ≤ 1 := by
  constructor
  · simp only [nmr1to2_point]
    set g := selectRoot roots12 with hgdef
    have hgnn : 0 ≤ g := selectRoot_nonneg roots12
    have hD : (0:ℝ) < 1 + g*k11 + g*g*k11*k12 := by positivity
    rw [div_add_div_same, div_le_one hD]
    nlinarith
  · simp only [nmr2to1_point]
    set h := selectRoot roots21 with hhdef
    have hhnn : 0 ≤ h := selectRoot_nonneg roots21
    have hD : (0:ℝ) < 1 + h*k11' + h*h*k11'*k12' := by positivity
    have hDen : (0:ℝ) < h0'*(1 + h*k11' + h*h*k11'*k12') := by positivity
    rw [div_add_div_same, div_le_one hDen]
    rcases selectRoot_eq_zero_or_mem roots21 with hz | ⟨z, hzmem, him, hre, heq⟩
    · rw [← hhdef] at hz
      rw [hz]
      nlinarith
    · have hcub := cubic21_real_eq hr21 hzmem him
      rw [← heq] at hcub
      nlinarith [mul_nonneg hhnn hD.le]

/-- Witness for C7 at `K11 = K12 = 1` with `(h0, g0) = (1, 2)` for the 1:2
model and `(h0, g0) = (2, 1)` for the 2:1 model; both cubics are
`z^3 + z^2 - 2` with root list `[1, -1+i, -1-i]`. -/
theorem C7_molefrac_sum_le_one_witness :
    ((0:ℝ) < 1 ∧ (0:ℝ) < 2 ∧ (0:ℝ) ≤ 1 ∧ (0:ℝ) ≤ 2 ∧
     IsRootList (cubic12 1 1 1 2) rootsEx ∧
     IsRootList (cubic21 1 1 2 1) rootsEx) ∧
    (nmr1to2_point 1 1 1 2 rootsEx).1 + (nmr1to2_point 1 1 1 2 rootsEx).2 ≤ 1 ∧
    (nmr2to1_point 1 1 2 1 rootsEx).1 + (nmr2to1_point 1 1 2 1 rootsEx).2 ≤ 1 :=
  ⟨⟨by norm_num, by norm_num, by norm_num, by norm_num,
    rootsEx_isRootList12, rootsEx_isRootList21⟩,
   C7_molefrac_sum_le_one 1 1 1 2 1 1 2 1 rootsEx rootsEx
     (by norm_num) (by norm_num) (by norm_num) (by norm_num)
     (by norm_num) (by norm_num) (by norm_num) (by norm_num)
     rootsEx_isRootList12 rootsEx_isRootList21⟩

/-- Claim C9: for every stoichiometry, the NMR model equals the UV model
with `molefrac=True`, and equals the raw (`molefrac=False`) UV output divided
element-wise by `h0` (the 1:2 case needs `h0 ≠ 0` to cancel the `h0`
factor). -/
theorem C9_nmr_eq_uv_molefrac (k11 k12 h0 g0 : ℝ) (roots : List ℂ)
    (hh0 : h0 ≠ 0) :
    nmr1to1_point k11 h0 g0 = uv1to1_point k11 h0 g0 true ∧
    nmr1to1_point k11 h0 g0 = uv1to1_point k11 h0 g0 false / ((h0 : ℝ) : ℂ) ∧
    nmr1to2_point k11 k12 h0 g0 roots = uv1to2_point k11 k12 h0 g0 roots true ∧
    (nmr1to2_point k11 k12 h0 g0 roots).1
      = (uv1to2_point k11 k12 h0 g0 roots false).1 / h0 ∧
    (nmr1to2_point k11 k12 h0 g0 roots).2
      = (uv1to2_point k11 k12 h0 g0 roots false).2 / h0 ∧
    nmr2to1_point k11 k12 h0 g0 roots = uv2to1_point k11 k12 h0 g0 roots true ∧
    (nmr2to1_point k11 k12 h0 g0 roots).1
      = (uv2to1_point k11 k12 h0 g0 roots false).1 / h0 ∧
    (nmr2to1_point k11 k12 h0 g0 roots).2
      = (uv2to1_point k11 k12 h0 g0 roots false).2 / h0 := by
  set g := selectRoot roots with hgdef
  have e12a : (nmr1to2_point k11 k12 h0 g0 roots).1
      = (uv1to2_point k11 k12 h0 g0 roots false).1 / h0 := by
    simp only [nmr1to2_point, uv1to2_point, Bool.false_eq_true, if_false, ← hgdef]
    exact (mul_div_cancel_left₀ _ hh0).symm
  have e12b : (nmr1to2_point k11 k12 h0 g0 roots).2
      = (uv1to2_point k11 k12 h0 g0 roots false).2 / h0 := by
    simp only [nmr1to2_point, uv1to2_point, Bool.false_eq_true, if_false, ← hgdef]
    exact (mul_div_cancel_left₀ _ hh0).symm
  have e21a : (nmr2to1_point k11 k12 h0 g0 roots).1
      = (uv2to1_point k11 k12 h0 g0 roots false).1 / h0 := by
    simp only [nmr2to1_point, uv2to1_point, Bool.false_eq_true, if_false, ← hgdef]
    rw [mul_comm h0 (1+(g*k11)+(g*g*k11*k12)), ← div_div]
    ring
  have e21b : (nmr2to1_point k11 k12 h0 g0 roots).2
      = (uv2to1_point k11 k12 h0 g0 roots false).2 / h0 := by
    simp only [nmr2to1_point, uv2to1_point, Bool.false_eq_true, if_false, ← hgdef]
    rw [mul_comm h0 (1+(g*k11)+(g*g*k11*k12)), ← div_div]
    ring
  refine ⟨rfl, rfl, ?_, e12a, e12b, ?_, e21a, e21b⟩
  · apply Prod.ext
    · simp only [nmr1to2_point, uv1to2_point, if_true, ← hgdef]
      exact (mul_div_cancel_left₀ _ hh0).symm
    · simp only [nmr1to2_point, uv1to2_point, if_true, ← hgdef]
      exact (mul_div_cancel_left₀ _ hh0).symm
  · apply Prod.ext
    · simp only [nmr2to1_point, uv2to1_point, if_true, ← hgdef]
      rw [mul_comm h0 (1+(g*k11)+(g*g*k11*k12)), ← div_div]
      ring
    · simp only [nmr2to1_point, uv2to1_point, if_true, ← hgdef]
      rw [mul_comm h0 (1+(g*k11)+(g*g*k11*k12)), ← div_div]
      ring

/-- Witness for C9 at `K11 = K12 = 1, h0 = 2, g0 = 1` with root list
`[1, -1+i, -1-i]`. -/
theorem C9_nmr_eq_uv_molefrac_witness :
    ((2:ℝ) ≠ 0) ∧
    (nmr1to1_point 1 2 1 = uv1to1_point 1 2 1 true ∧
     nmr1to1_point 1 2 1 = uv1to1_point 1 2 1 false / (((2:ℝ) : ℝ) : ℂ) ∧
     nmr1to2_point 1 1 2 1 rootsEx = uv1to2_point 1 1 2 1 rootsEx true ∧
     (nmr1to2_point 1 1 2 1 rootsEx).1
       = (uv1to2_point 1 1 2 1 rootsEx false).1 / 2 ∧
     (nmr1to2_point 1 1 2 1 rootsEx).2
       = (uv1to2_point 1 1 2 1 rootsEx false).2 / 2 ∧
     nmr2to1_point 1 1 2 1 rootsEx = uv2to1_point 1 1 2 1 rootsEx true ∧
     (nmr2to1_point 1 1 2 1 rootsEx).1
       = (uv2to1_point 1 1 2 1 rootsEx false).1 / 2 ∧
     (nmr2to1_point 1 1 2 1 rootsEx).2
       = (uv2to1_point 1 1 2 1 rootsEx false).2 / 2) :=
  ⟨by norm_num, C9_nmr_eq_uv_molefrac 1 1 2 1 rootsEx (by norm_num)⟩

/-! ### The 1:1 mass-action property -/

/-- Claim C5: for `K > 0`, `h0 > 0`, `g0 > 0` and non-negative discriminant,
the raw complex concentration computed by `uv_1to1` is the real closed-form
root `(g0+h0+1/K - sqrt(disc))/2` and satisfies the mass-action equation
`K = HG / ((h0-HG)*(g0-HG))`. -/
theorem C5_mass_action (k h0 g0 : ℝ) (hk : 0 < k) (hh : 0 < h0) (hg : 0 < g0)
    (hd : 0 ≤ (g0 + h0 + 1/k)^2 - 4*(g0*h0)) :
    uv1to1_point k h0 g0 false
      = (((g0 + h0 + 1/k
          - Real.sqrt ((g0 + h0 + 1/k)^2 - 4*(g0*h0)))/2 : ℝ) : ℂ) ∧
    k = (uv1to1_point k h0 g0 false).re
      / ((h0 - (uv1to1_point k h0 g0 false).re)
        * (g0 - (uv1to1_point k h0 g0 false).re)) := by
  set s : ℝ := g0 + h0 + 1/k with hsdef
  set r : ℝ := Real.sqrt (s^2 - 4*(g0*h0)) with hrdef
  have hr0 : 0 ≤ r := Real.sqrt_nonneg _
  have hr2 : r^2 = s^2 - 4*(g0*h0) := Real.sq_sqrt hd
  have hs0 : 0 < s := by
    have : 0 < 1/k := by positivity
    simp only [hsdef]
    linarith
  have hrs : r < s := by nlinarith
  have heval : uv1to1_point k h0 g0 false = (((s - r)/2 : ℝ) : ℂ) := by
    unfold uv1to1_point hgRaw
    rw [← hsdef, scimathSqrt_of_nonneg hd, ← hrdef]
    have him : ((1/2 : ℂ) * (((s : ℝ) : ℂ) - ((r : ℝ) : ℂ))).im = 0 := by
      simp [Complex.mul_im, Complex.sub_im, Complex.sub_re]
    simp only [Bool.false_eq_true, if_false]
    rw [if_neg (by rw [him]; norm_num)]
    apply Complex.ext
    · simp [Complex.mul_re, Complex.sub_re, Complex.sub_im]
      ring
    · simp [Complex.mul_im, Complex.sub_im, Complex.sub_re]
  refine ⟨heval, ?_⟩
  rw [heval, Complex.ofReal_re]
  set HG : ℝ := (s - r)/2 with hHGdef
  have hHGpos : 0 < HG := by
    simp only [hHGdef]
    exact div_pos (sub_pos.mpr hrs) two_pos
  have hknz : k ≠ 0 := ne_of_gt hk
  have hexp : HG^2 = s*HG - g0*h0 := by
    simp only [hHGdef]
    linear_combination (1/4) * hr2
  have hsub : k*(h0 + g0) = k*s - 1 := by
    simp only [hsdef]
    field_simp
    ring
  have key : (h0 - HG) * (g0 - HG) * k = HG := by
    linear_combination k * hexp - HG * hsub
  have keydiv : (h0 - HG) * (g0 - HG) = HG / k := by
    rw [eq_div_iff hknz]
    exact key
  rw [keydiv, div_div_eq_mul_div, eq_div_iff (ne_of_gt hHGpos)]
  ring

/-- Witness for C5 at `K = 1, h0 = g0 = 2` (discriminant `9`, `HG = 1`). -/
theorem C5_mass_action_witness :
    ((0:ℝ) < 1 ∧ (0:ℝ) < 2 ∧
      0 ≤ ((2:ℝ) + 2 + 1/1)^2 - 4*((2:ℝ)*2)) ∧
    (uv1to1_point 1 2 2 false
      = ((((2:ℝ) + 2 + 1/1
          - Real.sqrt (((2:ℝ) + 2 + 1/1)^2 - 4*((2:ℝ)*2)))/2 : ℝ) : ℂ) ∧
     (1:ℝ) = (uv1to1_point 1 2 2 false).re
      / ((2 - (uv1to1_point 1 2 2 false).re)
        * (2 - (uv1to1_point 1 2 2 false).re))) :=
  ⟨⟨by norm_num, by norm_num, by norm_num⟩,
   C5_mass_action 1 2 2 (by norm_num) (by norm_num) (by norm_num) (by norm_num)⟩

/-! ### The objective pipeline: regression and residual formatting

`Function.objective` (functions.py lines 22-86) receives a species matrix
`molefrac` (`n` observations by `m` species) from the dispatched model
function and an observed-signal matrix `ydata` (`c` channels by `n`
observations), calls `np.linalg.lstsq(molefrac, ydata.T)`, forms
`fit = molefrac.dot(coeffs).T` and `residuals = fit - ydata`, and returns
`rssq.sum()` in scalar mode or `residuals.sum(axis=0)` in vector mode. -/

/-- `fit = molefrac.dot(coeffs).T` (functions.py line 64). -/
def fitMatrix {n m c : ℕ} (A : Matrix (Fin n) (Fin m) ℝ)
    (X : Matrix (Fin m) (Fin c) ℝ) : Matrix (Fin c) (Fin n) ℝ := (A * X)ᵀ

/-- `residuals = fit - ydata` (functions.py line 70). -/
def residualMatrix {n m c : ℕ} (A : Matrix (Fin n) (Fin m) ℝ)
    (X : Matrix (Fin m) (Fin c) ℝ) (Y : Matrix (Fin c) (Fin n) ℝ) :
    Matrix (Fin c) (Fin n) ℝ := fitMatrix A X - Y

/-- The coefficient matrix returned by `np.linalg.lstsq(A, B)` (an external
LAPACK routine): the minimum-norm least-squares solution, characterized by
the normal equations together with membership in the row space of `A`. -/
def IsLstsq {n m c : ℕ} (A : Matrix (Fin n) (Fin m) ℝ)
    (B : Matrix (Fin n) (Fin c) ℝ) (X : Matrix (Fin m) (Fin c) ℝ) : Prop :=
  Aᵀ * A * X = Aᵀ * B ∧ ∃ W : Matrix (Fin n) (Fin c) ℝ, X = Aᵀ * W

open Classical in
/-- The residual array returned by `np.linalg.lstsq(A, B)`: the per-column
sums of squared residuals when `A` has full column rank and strictly more
rows than columns, and the empty array otherwise (numpy's documented
behaviour). -/
def npLstsqRssq {n m c : ℕ} (A : Matrix (Fin n) (Fin m) ℝ)
    (B : Matrix (Fin n) (Fin c) ℝ) (X : Matrix (Fin m) (Fin c) ℝ) : List ℝ :=
  if A.rank = m ∧ m < n then
    List.ofFn (fun j : Fin c => ∑ i, ((A * X - B) i j)^2)
  else []

/-- Scalar mode of `Function.objective` (functions.py lines 73-74):
`return rssq.sum()` where `rssq` comes from `lstsq(molefrac, ydata.T)`. -/
def objectiveScalar {n m c : ℕ} (A : Matrix (Fin n) (Fin m) ℝ)
    (Y : Matrix (Fin c) (Fin n) ℝ) (X : Matrix (Fin m) (Fin c) ℝ) : ℝ :=
  (npLstsqRssq A Yᵀ X).sum

/-- `residuals.sum(axis=0)`: per-observation sums over the channel axis. -/
def npSumAxis0 {n c : ℕ} (M : Matrix (Fin c) (Fin n) ℝ) : Fin n → ℝ :=
  fun i => ∑ d, M d i

/-- Vector mode of `Function.objective` (functions.py lines 77-86):
`rsum = residuals.sum(axis=0); return [float(r) for r in rsum]`. -/
def objectiveVector {n m c : ℕ} (A : Matrix (Fin n) (Fin m) ℝ)
    (Y : Matrix (Fin c) (Fin n) ℝ) (X : Matrix (Fin m) (Fin c) ℝ) : List ℝ :=
  List.ofFn (npSumAxis0 (residualMatrix A X Y))

/-- If the normal equations hold then the fitted values agree:
`A*X = A*C` whenever `Aᵀ*A*X = Aᵀ*(A*C)`. -/
lemma mul_eq_of_normal {n m c : ℕ} {A : Matrix (Fin n) (Fin m) ℝ}
    {X C : Matrix (Fin m) (Fin c) ℝ}
    (h : Aᵀ * A * X = Aᵀ * (A * C)) : A * X = A * C := by
  have hz : Aᵀ * A * (X - C) = 0 := by
    rw [Matrix.mul_sub, h, ← Matrix.mul_assoc, sub_self]
  have hcol : ∀ j, A.mulVec (fun k => (X - C) k j) = 0 := by
    intro j
    have hker : (Aᵀ * A).mulVec (fun k => (X - C) k j) = 0 := by
      funext i
      have h0 := congrFun (congrFun hz i) j
      simpa [Matrix.mulVec, Matrix.dotProduct, Matrix.mul_apply] using h0
    have hker' : (fun k => (X - C) k j) ∈ LinearMap.ker (Aᵀ * A).mulVecLin := by
      rw [LinearMap.mem_ker, Matrix.mulVecLin_apply]
      exact hker
    rw [Matrix.ker_mulVecLin_transpose_mul_self] at hker'
    rw [LinearMap.mem_ker, Matrix.mulVecLin_apply] at hker'
    exact hker'
  ext i j
  have h1 := congrFun (hcol j) i
  simp only [Matrix.mulVec, Matrix.dotProduct, Matrix.sub_apply,
    Pi.zero_apply] at h1
  simp only [Matrix.mul_apply]
  have h2 : ∑ k, A i k * X k j - ∑ k, A i k * C k j = 0 := by
    rw [← Finset.sum_sub_distrib]
    simp_rw [← mul_sub]
    exact h1
  linarith

/-- Claim C6 (amended): when the species matrix has full column rank and
strictly more observations than species, scalar mode returns the total sum
of squared residuals over all channels and observations; in the remaining
cases numpy's residual array is empty and the returned value is `0.0`. -/
theorem C6_scalar_total_ssq {n m c : ℕ} (A : Matrix (Fin n) (Fin m) ℝ)
    (Y : Matrix (Fin c) (Fin n) ℝ) (X : Matrix (Fin m) (Fin c) ℝ)
    (hrank : A.rank = m) (hmn : m < n) (hX : IsLstsq A Yᵀ X) :
    objectiveScalar A Y X = ∑ d, ∑ i, (residualMatrix A X Y d i)^2 := by
  unfold objectiveScalar npLstsqRssq
  rw [if_pos ⟨hrank, hmn⟩, List.sum_ofFn]
  apply Finset.sum_congr rfl
  intro j _
  apply Finset.sum_congr rfl
  intro i _
  simp only [residualMatrix, fitMatrix, Matrix.sub_apply, Matrix.transpose_apply]

/-- Claim C1 (amended): vector mode returns a list with exactly one real
number per observation, whose `i`-th entry is the sum over the channels of
the residual `fit - ydata` at observation `i` (not one entry per channel). -/
theorem C1_vector_per_observation {n m c : ℕ} (A : Matrix (Fin n) (Fin m) ℝ)
    (Y : Matrix (Fin c) (Fin n) ℝ) (X : Matrix (Fin m) (Fin c) ℝ)
    (hX : IsLstsq A Yᵀ X) :
    (objectiveVector A Y X).length = n ∧
    objectiveVector A Y X
      = List.ofFn (fun i : Fin n => ∑ d : Fin c, ((A * X) i d - Y d i)) := by
  constructor
  · simp [objectiveVector]
  · unfold objectiveVector npSumAxis0
    congr 1

/-- Claim C8 (amended): when `ydata` is exactly `(A*C)ᵀ` for a coefficient
matrix `C`, any least-squares solution reproduces the data exactly: the
fitted signal equals the data, the residual matrix is zero, scalar mode
returns `0` and vector mode returns all zeros; the coefficients themselves
are recovered when the species matrix has full column rank (injective
`mulVec`), but not necessarily otherwise. -/
theorem C8_regression_roundtrip {n m c : ℕ} (A : Matrix (Fin n) (Fin m) ℝ)
    (C X : Matrix (Fin m) (Fin c) ℝ) (hX : IsLstsq A (A * C) X) :
    A * X = A * C ∧
    residualMatrix A X ((A * C)ᵀ) = 0 ∧
    objectiveScalar A ((A * C)ᵀ) X = 0 ∧
    objectiveVector A ((A * C)ᵀ) X = List.ofFn (fun _ : Fin n => (0:ℝ)) ∧
    (Function.Injective A.mulVec → X = C) := by
  have hfit : A * X = A * C := mul_eq_of_normal hX.1
  have hres : residualMatrix A X ((A * C)ᵀ) = 0 := by
    unfold residualMatrix fitMatrix
    rw [hfit, sub_self]
  refine ⟨hfit, hres, ?_, ?_, ?_⟩
  · unfold objectiveScalar npLstsqRssq
    split_ifs with hcond
    · rw [List.sum_ofFn]
      apply Finset.sum_eq_zero
      intro j _
      apply Finset.sum_eq_zero
      intro i _
      rw [Matrix.transpose_transpose, hfit, sub_self]
      simp
    · rfl
  · unfold objectiveVector npSumAxis0
    rw [hres]
    congr 1
    funext i
    simp
  · intro hinj
    have hcols : ∀ j, (fun k => X k j) = fun k => C k j := by
      intro j
      apply hinj
      funext i
      have h0 := congrFun (congrFun hfit i) j
      simpa [Matrix.mulVec, Matrix.dotProduct, Matrix.mul_apply] using h0
    ext k j
    exact congrFun (hcols j) k

/-! ### Concrete instances of the pipeline -/

lemma uv1to2_ex : uv1to2_point 1 1 1 2 rootsEx false = (1/3, 1/3) := by
  simp only [uv1to2_point, selectRoot_rootsEx]
  norm_num [Prod.ext_iff]

lemma nmr1to2_ex : nmr1to2_point 1 1 1 2 rootsEx = (1/3, 1/3) := by
  simp only [nmr1to2_point, selectRoot_rootsEx]
  norm_num [Prod.ext_iff]

/-- The 1-observation species matrix produced by `uv_1to2` at
`K11 = K12 = 1, h0 = 1, g0 = 2`: the single row `(1/3, 1/3)`. -/
def A12ex : Matrix (Fin 1) (Fin 2) ℝ :=
  Matrix.of fun _ j =>
    if j = 0 then (uv1to2_point 1 1 1 2 rootsEx false).1
    else (uv1to2_point 1 1 1 2 rootsEx false).2

/-- The known coefficient vector of the C8 counterexample. -/
def Cex : Matrix (Fin 2) (Fin 1) ℝ :=
  Matrix.of fun k _ => if k = 0 then 1 else 2

/-- The minimum-norm least-squares solution at the C8 counterexample. -/
def Xminex : Matrix (Fin 2) (Fin 1) ℝ := Matrix.of fun _ _ => 3/2

lemma A12ex_apply (i : Fin 1) (j : Fin 2) : A12ex i j = 1/3 := by
  fin_cases j <;> simp [A12ex, uv1to2_ex]

/-- Counterexample to claim C8: for the registered model `uv1to2` at the
valid single-observation input `K = (1,1), h0 = [1], g0 = [2]` the species
matrix is the rank-deficient row `(1/3, 1/3)`; with `ydata` built from the
coefficient vector `C = (1,2)`, the minimum-norm solution returned by
`lstsq` is `(3/2, 3/2) ≠ C`, and `C` itself is not the `lstsq` output. -/
theorem C8_minnorm_counterexample :
    IsLstsq A12ex (A12ex * Cex) Xminex ∧
    Xminex ≠ Cex ∧
    ¬ IsLstsq A12ex (A12ex * Cex) Cex := by
  refine ⟨⟨?_, ⟨Matrix.of fun _ _ => 9/2, ?_⟩⟩, ?_, ?_⟩
  · ext i j
    fin_cases i <;> fin_cases j <;>
      · simp [Matrix.mul_apply, Matrix.transpose_apply, A12ex_apply,
          Cex, Xminex, Fin.sum_univ_two, Fin.sum_univ_one, Matrix.of_apply]
        norm_num
  · ext i j
    fin_cases i <;> fin_cases j <;>
      · simp [Matrix.mul_apply, Matrix.transpose_apply, A12ex_apply,
          Xminex, Fin.sum_univ_one, Matrix.of_apply]
        norm_num
  · intro h
    have h10 := congrFun (congrFun h 1) 0
    simp [Xminex, Cex, Matrix.of_apply] at h10
    norm_num at h10
  · rintro ⟨-, W, hW⟩
    have h1 := congrFun (congrFun hW 0) 0
    have h2 := congrFun (congrFun hW 1) 0
    simp [Cex, Matrix.transpose_apply, Matrix.mul_apply, Fin.sum_univ_one,
      A12ex_apply, Matrix.of_apply] at h1 h2
    linarith

/-- The 2-observation species matrix produced by `uv_1to2` at the input
with the observation `h0 = 1, g0 = 2` duplicated: two identical rows
`(1/3, 1/3)`. -/
def A22ex : Matrix (Fin 2) (Fin 2) ℝ :=
  Matrix.of fun _ j =>
    if j = 0 then (uv1to2_point 1 1 1 2 rootsEx false).1
    else (uv1to2_point 1 1 1 2 rootsEx false).2

/-- One observed channel over the two duplicated observations. -/
def Y12ex : Matrix (Fin 1) (Fin 2) ℝ := !![0, 1]

/-- The minimum-norm least-squares solution at the C6 counterexample. -/
def X21ex : Matrix (Fin 2) (Fin 1) ℝ := Matrix.of fun _ _ => 3/4

lemma A22ex_apply (i : Fin 2) (j : Fin 2) : A22ex i j = 1/3 := by
  fin_cases j <;> simp [A22ex, uv1to2_ex]

/-- Counterexample to claim C6: at the valid input with a duplicated
observation (`uv1to2`, `K = (1,1)`, `h0 = [1,1]`, `g0 = [2,2]`,
`ydata = [[0,1]]`), numpy's `lstsq` residual array is empty (`M <= N`), so
scalar mode returns `0.0` although the total sum of squared residuals of the
fit is `1/2`. -/
theorem C6_scalar_counterexample :
    IsLstsq A22ex Y12exᵀ X21ex ∧
    objectiveScalar A22ex Y12ex X21ex = 0 ∧
    ∑ d : Fin 1, ∑ i : Fin 2, (residualMatrix A22ex X21ex Y12ex d i)^2
      = 1/2 := by
  refine ⟨⟨?_, ⟨Matrix.of fun _ _ => 9/8, ?_⟩⟩, ?_, ?_⟩
  · ext i j
    fin_cases i <;> fin_cases j <;>
      · simp [Matrix.mul_apply, Matrix.transpose_apply, A22ex_apply,
          Y12ex, X21ex, Fin.sum_univ_two, Fin.sum_univ_one, Matrix.of_apply]
        norm_num
  · ext i j
    fin_cases i <;> fin_cases j <;>
      · simp [Matrix.mul_apply, Matrix.transpose_apply, A22ex_apply,
          X21ex, Fin.sum_univ_two, Matrix.of_apply]
        norm_num
  · unfold objectiveScalar npLstsqRssq
    rw [if_neg (by rintro ⟨-, h⟩; exact absurd h (by norm_num))]
    rfl
  · norm_num [residualMatrix, fitMatrix, Matrix.sub_apply,
      Matrix.transpose_apply, Matrix.mul_apply, A22ex_apply, X21ex, Y12ex,
      Fin.sum_univ_two, Fin.sum_univ_one, Matrix.of_apply]

/-- The 2-observation, single-species matrix produced by `uv_1to1` at
`K = 1, h0 = g0 = [2,2]`: the column of ones. -/
def A2col : Matrix (Fin 2) (Fin 1) ℝ :=
  Matrix.of fun _ _ => (uv1to1_point 1 2 2 false).re

lemma A2col_apply (i : Fin 2) (j : Fin 1) : A2col i j = 1 := by
  simp [A2col, uv1to1_point_1_2_2]

lemma A2col_rank : A2col.rank = 1 := by
  have h1 : A2colᵀ * A2col = !![2] := by
    ext i j
    fin_cases i
    fin_cases j
    norm_num [Matrix.mul_apply, Matrix.transpose_apply, A2col_apply,
      Fin.sum_univ_two]
  have hunit : IsUnit (!![2] : Matrix (Fin 1) (Fin 1) ℝ) := by
    rw [Matrix.isUnit_iff_isUnit_det, Matrix.det_fin_one]
    exact isUnit_iff_ne_zero.mpr (by norm_num)
  have h2 : (!![2] : Matrix (Fin 1) (Fin 1) ℝ).rank = 1 := by
    have := Matrix.rank_of_isUnit _ hunit
    simpa using this
  rw [← Matrix.rank_transpose_mul_self, h1]
  exact h2

lemma A2col_lstsq : IsLstsq A2col (!![(2:ℝ), 4])ᵀ !![(3:ℝ)] := by
  refine ⟨?_, ⟨Matrix.of fun _ _ => 3/2, ?_⟩⟩
  · ext i j
    fin_cases i
    fin_cases j
    simp [Matrix.mul_apply, Matrix.transpose_apply, A2col_apply,
      Fin.sum_univ_two, Fin.sum_univ_one]
    norm_num
  · ext i j
    fin_cases i
    fin_cases j
    simp [Matrix.mul_apply, Matrix.transpose_apply, A2col_apply,
      Fin.sum_univ_two, Matrix.of_apply]
    norm_num

/-- Witness for the amended C6 at the full-column-rank instance `A2col`
(rank 1, 2 observations) with `ydata = [[2,4]]` and `lstsq` solution `3`. -/
theorem C6_scalar_total_ssq_witness :
    (A2col.rank = 1 ∧ 1 < 2 ∧ IsLstsq A2col (!![(2:ℝ), 4])ᵀ !![(3:ℝ)]) ∧
    objectiveScalar A2col !![(2:ℝ), 4] !![(3:ℝ)]
      = ∑ d : Fin 1, ∑ i : Fin 2,
          (residualMatrix A2col !![(3:ℝ)] !![(2:ℝ), 4] d i)^2 :=
  ⟨⟨A2col_rank, by norm_num, A2col_lstsq⟩,
   C6_scalar_total_ssq _ _ _ A2col_rank (by norm_num) A2col_lstsq⟩

/-- Witness for the amended C1 at the same instance. -/
theorem C1_vector_per_observation_witness :
    IsLstsq A2col (!![(2:ℝ), 4])ᵀ !![(3:ℝ)] ∧
    ((objectiveVector A2col !![(2:ℝ), 4] !![(3:ℝ)]).length = 2 ∧
     objectiveVector A2col !![(2:ℝ), 4] !![(3:ℝ)]
       = List.ofFn (fun i : Fin 2 =>
           ∑ d : Fin 1, ((A2col * !![(3:ℝ)]) i d - !![(2:ℝ), 4] d i))) :=
  ⟨A2col_lstsq, C1_vector_per_observation _ _ _ A2col_lstsq⟩

lemma A2col_lstsq_C : IsLstsq A2col (A2col * !![(5:ℝ)]) !![(5:ℝ)] := by
  refine ⟨by rw [Matrix.mul_assoc], ⟨Matrix.of fun _ _ => 5/2, ?_⟩⟩
  ext i j
  fin_cases i
  fin_cases j
  simp [Matrix.mul_apply, Matrix.transpose_apply, A2col_apply,
    Fin.sum_univ_two, Matrix.of_apply]
  norm_num

/-- Witness for the amended C8 at the full-column-rank instance `A2col`
with coefficient matrix `C = (5)`. -/
theorem C8_regression_roundtrip_witness :
    IsLstsq A2col (A2col * !![(5:ℝ)]) !![(5:ℝ)] ∧
    (A2col * !![(5:ℝ)] = A2col * !![(5:ℝ)] ∧
     residualMatrix A2col !![(5:ℝ)] ((A2col * !![(5:ℝ)])ᵀ) = 0 ∧
     objectiveScalar A2col ((A2col * !![(5:ℝ)])ᵀ) !![(5:ℝ)] = 0 ∧
     objectiveVector A2col ((A2col * !![(5:ℝ)])ᵀ) !![(5:ℝ)]
       = List.ofFn (fun _ : Fin 2 => (0:ℝ)) ∧
     (Function.Injective A2col.mulVec → !![(5:ℝ)] = !![(5:ℝ)])) :=
  ⟨A2col_lstsq_C, C8_regression_roundtrip _ _ _ A2col_lstsq_C⟩

/-- The 3-observation species matrix produced by `nmr_1to2` at the input
with the observation `h0 = 1, g0 = 2` triplicated: three identical rows
`(1/3, 1/3)`. -/
def A32ex : Matrix (Fin 3) (Fin 2) ℝ :=
  Matrix.of fun _ j =>
    if j = 0 then (nmr1to2_point 1 1 1 2 rootsEx).1
    else (nmr1to2_point 1 1 1 2 rootsEx).2

/-- Two observed channels over the three observations. -/
def Y23ex : Matrix (Fin 2) (Fin 3) ℝ := !![1, 1, 4; 2, 2, 2]

/-- The minimum-norm least-squares solution at the C1 counterexample. -/
def X22ex : Matrix (Fin 2) (Fin 2) ℝ := Matrix.of fun _ _ => 3

lemma A32ex_apply (i : Fin 3) (j : Fin 2) : A32ex i j = 1/3 := by
  fin_cases j <;> simp [A32ex, nmr1to2_ex]

/-- Counterexample to claim C1: at the valid `nmr1to2` input with three
observations and two channels (`ydata = [[1,1,4],[2,2,2]]`), vector mode
returns `[1, 1, -2]` - a list of length 3 (one entry per observation,
channel sums), not a list with one entry per channel (the per-channel sums
across observations would be `[0, 0]` of length 2). -/
theorem C1_vector_counterexample :
    IsLstsq A32ex Y23exᵀ X22ex ∧
    objectiveVector A32ex Y23ex X22ex = [1, 1, -2] ∧
    (objectiveVector A32ex Y23ex X22ex).length ≠ 2 ∧
    objectiveVector A32ex Y23ex X22ex
      ≠ [∑ i : Fin 3, residualMatrix A32ex X22ex Y23ex 0 i,
         ∑ i : Fin 3, residualMatrix A32ex X22ex Y23ex 1 i] := by
  have heval : objectiveVector A32ex Y23ex X22ex = [1, 1, -2] := by
    unfold objectiveVector npSumAxis0 residualMatrix fitMatrix
    simp [List.ofFn_succ, Matrix.sub_apply, Matrix.transpose_apply,
      Matrix.mul_apply, A32ex_apply, X22ex, Y23ex, Fin.sum_univ_two,
      Matrix.of_apply]
    norm_num
  refine ⟨⟨?_, ⟨Matrix.of fun _ _ => 3, ?_⟩⟩, heval, ?_, ?_⟩
  · ext i j
    fin_cases i <;> fin_cases j <;>
      · norm_num [Matrix.mul_apply, Matrix.transpose_apply, A32ex_apply,
          Y23ex, X22ex, Fin.sum_univ_two, Fin.sum_univ_three, Matrix.of_apply,
          Matrix.cons_val_zero, Matrix.cons_val_one, Matrix.head_cons,
          Matrix.vecHead, Matrix.vecTail]
  · ext i j
    fin_cases i <;> fin_cases j <;>
      · norm_num [Matrix.mul_apply, Matrix.transpose_apply, A32ex_apply,
          X22ex, Fin.sum_univ_three, Matrix.of_apply]
  · rw [heval]
    norm_num
  · rw [heval]
    intro h
    have := congrArg List.length h
    simp at this

/-! ### Entry behaviour of the objective on list inputs (claim C3)

`Function.objective` performs no validation of its inputs: it immediately
calls the dispatched model function (line 54) and only then
`np.linalg.lstsq` (line 58).  A raised numpy exception is modelled by
`none`. -/

/-- `uv_1to1` applied to whole input lists.  numpy's elementwise arithmetic
on `h0` and `g0` requires equal shapes; a mismatch raises from inside the
solver arithmetic (modelled as `none`), not from any entry check. -/
def uv1to1_list (k : ℝ) (h0 g0 : List ℝ) : Option (List ℂ) :=
  if h0.length = g0.length then
    some ((h0.zip g0).map fun p => uv1to1_point k p.1 p.2 false)
  else none

/-- The staged start of `Function.objective` for the `uv1to1` model: first
the equilibrium solver runs, then `lstsq` requires `ydata.T` to have as many
rows as the species matrix and raises a LinAlgError otherwise (`none`). -/
def objective1to1Run (k : ℝ) (h0 g0 : List ℝ) (ydata : List (List ℝ)) :
    Option (List ℂ) :=
  match uv1to1_list k h0 g0 with
  | none => none
  | some mf =>
      if ydata.all (fun row => row.length == mf.length) then some mf
      else none

/-- Claim C3 (amended): the objective has no shape validation at entry.
With consistent `h0`/`g0`, the equilibrium solver always runs to completion
(one concentration per observation); a mismatch on the observation axis of
`ydata` is detected only afterwards, at the regression stage. -/
theorem C3_mismatch_error_after_solving (k : ℝ) (h0 g0 : List ℝ)
    (ydata : List (List ℝ)) (hlen : h0.length = g0.length)
    (hbad : ∃ row ∈ ydata, row.length ≠ h0.length) :
    uv1to1_list k h0 g0
      = some ((h0.zip g0).map fun p => uv1to1_point k p.1 p.2 false) ∧
    ((h0.zip g0).map fun p => uv1to1_point k p.1 p.2 false).length
      = h0.length ∧
    objective1to1Run k h0 g0 ydata = none := by
  have hsolve : uv1to1_list k h0 g0
      = some ((h0.zip g0).map fun p => uv1to1_point k p.1 p.2 false) := by
    unfold uv1to1_list
    rw [if_pos hlen]
  have hlength : ((h0.zip g0).map fun p => uv1to1_point k p.1 p.2 false).length
      = h0.length := by
    rw [List.length_map, List.length_zip, ← hlen, min_self]
  refine ⟨hsolve, hlength, ?_⟩
  obtain ⟨row, hrow, hne⟩ := hbad
  unfold objective1to1Run
  rw [hsolve]
  dsimp only
  have hcond : ¬ (ydata.all (fun r => r.length
      == ((h0.zip g0).map fun p => uv1to1_point k p.1 p.2 false).length)
      = true) := by
    rw [List.all_eq_true]
    intro hall
    have hr := hall row hrow
    rw [beq_iff_eq, hlength] at hr
    exact hne hr
  rw [if_neg hcond]

/-- Counterexample to claim C3: at `K = 1, h0 = g0 = [2,2]` with a
one-observation `ydata = [[1]]` (mismatched observation axis), the
equilibrium solver runs to completion and returns the species column
`[1, 1]`; the call then fails at the regression stage, not with a hard
error at entry before any equilibrium computation. -/
theorem C3_no_entry_validation_counterexample :
    uv1to1_list 1 [2, 2] [2, 2] = some [1, 1] ∧
    ([(1:ℝ)] : List ℝ).length ≠ ([2, 2] : List ℝ).length ∧
    objective1to1Run 1 [2, 2] [2, 2] [[1]] = none := by
  have hsolve : uv1to1_list 1 [2, 2] [2, 2] = some [1, 1] := by
    unfold uv1to1_list
    rw [if_pos rfl]
    simp [uv1to1_point_1_2_2]
  refine ⟨hsolve, by norm_num, ?_⟩
  unfold objective1to1Run
  rw [hsolve]
  norm_num

/-- Witness for the amended C3 at the counterexample input. -/
theorem C3_mismatch_error_after_solving_witness :
    (([2, 2] : List ℝ).length = ([2, 2] : List ℝ).length ∧
     ∃ row ∈ ([[(1:ℝ)]] : List (List ℝ)), row.length ≠ ([2, 2] : List ℝ).length) ∧
    (uv1to1_list 1 [2, 2] [2, 2]
      = some ((([2, 2] : List ℝ).zip ([2, 2] : List ℝ)).map
          fun p => uv1to1_point 1 p.1 p.2 false) ∧
     ((([2, 2] : List ℝ).zip ([2, 2] : List ℝ)).map
          fun p => uv1to1_point 1 p.1 p.2 false).length
       = ([2, 2] : List ℝ).length ∧
     objective1to1Run 1 [2, 2] [2, 2] [[1]] = none) :=
  ⟨⟨rfl, ⟨[1], by norm_num, by norm_num⟩⟩,
   C3_mismatch_error_after_solving 1 [2, 2] [2, 2] [[1]] rfl
     ⟨[1], by norm_num, by norm_num⟩⟩

end Bindfit
